import Mathlib

/-!
Verification development for the LeetCode daily-articles fetcher.

Strings are modelled as Lean `String` / `List Char`. Go's `time.Time` is
modelled by `GoTime`: the broken-down civil fields together with the zone
offset in minutes (a `time.Time` value is determined by these for the
purposes of this program). `time.Parse(time.RFC3339, s)` is modelled by
`timeParseRFC3339`, `t.Format(time.RFC3339)` by `formatRFC3339`, and
`t.After(u)` by `goAfter`, which compares absolute instants.
-/

/-- Model of Go `time.Time`: civil date-time fields plus the zone offset in
minutes east of UTC.  `nsec` is the sub-second part in nanoseconds. -/
structure GoTime where
  year : Nat
  month : Nat
  day : Nat
  hour : Nat
  minute : Nat
  second : Nat
  nsec : Nat
  offsetMin : Int
deriving DecidableEq, Repr

/-- The zero `time.Time{}`: January 1, year 1, 00:00:00 UTC. -/
def timeZero : GoTime := ⟨1, 1, 1, 0, 0, 0, 0, 0⟩

/-- Decimal digit to its character. -/
def digitChar : Nat → Char
  | 0 => '0' | 1 => '1' | 2 => '2' | 3 => '3' | 4 => '4'
  | 5 => '5' | 6 => '6' | 7 => '7' | 8 => '8' | 9 => '9'
  | _ => '0'

/-- Character to decimal digit, when it is one. -/
def readDigit (c : Char) : Option Nat :=
  if '0' ≤ c ∧ c ≤ '9' then some (c.toNat - 48) else none

/-- Read exactly two decimal digits. -/
def read2 : List Char → Option (Nat × List Char)
  | c1 :: c2 :: rest =>
    match readDigit c1, readDigit c2 with
    | some d1, some d2 => some (d1 * 10 + d2, rest)
    | _, _ => none
  | _ => none

/-- Read exactly four decimal digits. -/
def read4 : List Char → Option (Nat × List Char)
  | c1 :: c2 :: c3 :: c4 :: rest =>
    match readDigit c1, readDigit c2, readDigit c3, readDigit c4 with
    | some d1, some d2, some d3, some d4 =>
      some (((d1 * 10 + d2) * 10 + d3) * 10 + d4, rest)
    | _, _, _, _ => none
  | _ => none

/-- Expect one fixed character. -/
def expectCh (c : Char) : List Char → Option (List Char)
  | x :: rest => if x = c then some rest else none
  | [] => none

/-- Two-digit zero-padded decimal (for values below 100). -/
def pad2 (n : Nat) : List Char := [digitChar (n / 10 % 10), digitChar (n % 10)]

/-- Four-digit zero-padded decimal (for values below 10000). -/
def pad4 (n : Nat) : List Char :=
  [digitChar (n / 1000 % 10), digitChar (n / 100 % 10),
   digitChar (n / 10 % 10), digitChar (n % 10)]

/-- Gregorian leap year, as in Go's `time` package. -/
def isLeapYear (y : Nat) : Bool :=
  y % 4 = 0 && (y % 100 ≠ 0 || y % 400 = 0)

/-- Number of days in a month, as checked by Go's date validation. -/
def daysInMonth (y m : Nat) : Nat :=
  if m = 2 then (if isLeapYear y then 29 else 28)
  else if m = 4 ∨ m = 6 ∨ m = 9 ∨ m = 11 then 30
  else 31

/-- Scale a fractional-second digit list to nanoseconds: the first nine
digits count, as in Go's fraction parsing. -/
def fracToNanos (ds : List Nat) : Nat :=
  (ds.take 9).foldl (fun acc d => acc * 10 + d) 0 * 10 ^ (9 - min ds.length 9)

/-- Split the longest leading run of decimal digits. -/
def takeDigits : List Char → (List Nat × List Char)
  | [] => ([], [])
  | c :: rest =>
    match readDigit c with
    | some d =>
      match takeDigits rest with
      | (ds, r) => (d :: ds, r)
    | none => ([], c :: rest)

/-- Optional fractional second: a dot followed by at least one digit. -/
def parseFrac : List Char → Option (Nat × List Char)
  | '.' :: rest =>
    match takeDigits rest with
    | ([], _) => none
    | (ds, r) => some (fracToNanos ds, r)
  | cs => some (0, cs)

/-- Zone offset: `Z`, or a sign followed by `hh:mm` with valid ranges. -/
def parseOffset : List Char → Option (Int × List Char)
  | 'Z' :: rest => some (0, rest)
  | '+' :: rest =>
    match read2 rest with
    | some (h, r1) =>
      match expectCh ':' r1 with
      | some r2 =>
        match read2 r2 with
        | some (m, r3) =>
          if h ≤ 23 ∧ m ≤ 59 then some ((h * 60 + m : Nat), r3) else none
        | none => none
      | none => none
    | none => none
  | '-' :: rest =>
    match read2 rest with
    | some (h, r1) =>
      match expectCh ':' r1 with
      | some r2 =>
        match read2 r2 with
        | some (m, r3) =>
          if h ≤ 23 ∧ m ≤ 59 then some (-(h * 60 + m : Nat) , r3) else none
        | none => none
      | none => none
    | none => none
  | _ => none

/-- The date part `yyyy-mm-dd` of an RFC3339 string. -/
def parseDatePart (cs : List Char) : Option (Nat × Nat × Nat × List Char) :=
  match read4 cs with
  | some (y, r1) =>
    match expectCh '-' r1 with
    | some r2 =>
      match read2 r2 with
      | some (mo, r3) =>
        match expectCh '-' r3 with
        | some r4 =>
          match read2 r4 with
          | some (d, r5) => some (y, mo, d, r5)
          | none => none
        | none => none
      | none => none
    | none => none
  | none => none

/-- The clock part `Thh:mm:ss` of an RFC3339 string. -/
def parseClockPart (cs : List Char) : Option (Nat × Nat × Nat × List Char) :=
  match expectCh 'T' cs with
  | some r6 =>
    match read2 r6 with
    | some (h, r7) =>
      match expectCh ':' r7 with
      | some r8 =>
        match read2 r8 with
        | some (mi, r9) =>
          match expectCh ':' r9 with
          | some r10 =>
            match read2 r10 with
            | some (s, r11) => some (h, mi, s, r11)
            | none => none
          | none => none
        | none => none
      | none => none
    | none => none
  | none => none

/-- The optional fraction followed by the zone offset. -/
def parseFracOffset (cs : List Char) : Option (Nat × Int × List Char) :=
  match parseFrac cs with
  | some (ns, r12) =>
    match parseOffset r12 with
    | some (off, r13) => some (ns, off, r13)
    | none => none
  | none => none

/-- Model of Go `time.Parse(time.RFC3339, s)` on the character list of `s`:
`yyyy-mm-ddThh:mm:ss[.fff...](Z|±hh:mm)`, with Go's range validation of the
date and clock fields.  Returns `none` where Go returns a parse error. -/
def parseRFC3339Chars (cs : List Char) : Option GoTime :=
  match parseDatePart cs with
  | some (y, mo, d, r5) =>
    match parseClockPart r5 with
    | some (h, mi, s, r11) =>
      match parseFracOffset r11 with
      | some (ns, off, r13) =>
        if r13 = [] ∧ 1 ≤ mo ∧ mo ≤ 12 ∧ 1 ≤ d ∧ d ≤ daysInMonth y mo ∧
            h ≤ 23 ∧ mi ≤ 59 ∧ s ≤ 59 then
          some ⟨y, mo, d, h, mi, s, ns, off⟩
        else none
      | none => none
    | none => none
  | none => none

/-- Model of Go `time.Parse(time.RFC3339, s)`. -/
def timeParseRFC3339 (s : String) : Option GoTime := parseRFC3339Chars s.data

/-- The zone-offset part of the RFC3339 rendering: `Z` for UTC, otherwise a
sign and `hh:mm`. -/
def offsetChars (off : Int) : List Char :=
  if off = 0 then ['Z']
  else (if off < 0 then '-' else '+') ::
    (pad2 (off.natAbs / 60) ++ ':' :: pad2 (off.natAbs % 60))

/-- Model of Go `t.Format(time.RFC3339)` on character lists.  The layout has
no fractional second, so `nsec` is dropped, exactly as in Go. -/
def formatRFC3339Chars (t : GoTime) : List Char :=
  pad4 t.year ++ '-' :: (pad2 t.month ++ '-' :: (pad2 t.day ++
    'T' :: (pad2 t.hour ++ ':' :: (pad2 t.minute ++ ':' ::
      (pad2 t.second ++ offsetChars t.offsetMin)))))

/-- Model of Go `t.Format(time.RFC3339)`. -/
def formatRFC3339 (t : GoTime) : String := ⟨formatRFC3339Chars t⟩

/-- Days from 1970-01-01 of a civil date (Gregorian, proleptic). -/
def daysFromCivil (y m d : Nat) : Int :=
  let yi : Int := if m ≤ 2 then (y : Int) - 1 else (y : Int)
  let era : Int := yi / 400
  let yoe : Int := yi - era * 400
  let mp : Int := if m ≥ 3 then (m : Int) - 3 else (m : Int) + 9
  let doy : Int := (153 * mp + 2) / 5 + (d : Int) - 1
  let doe : Int := yoe * 365 + yoe / 4 - yoe / 100 + doy
  era * 146097 + doe - 719468

/-- Absolute instant of a `GoTime` in nanoseconds since the Unix epoch. -/
def absNanos (t : GoTime) : Int :=
  ((daysFromCivil t.year t.month t.day) * 86400 +
    (t.hour : Int) * 3600 + (t.minute : Int) * 60 + (t.second : Int) -
    t.offsetMin * 60) * 1000000000 + (t.nsec : Int)

/-- Model of Go `t.After(u)`: strict comparison of absolute instants. -/
def goAfter (t u : GoTime) : Bool := absNanos u < absNanos t

/-- Article record, as decoded from the feed (`types.go`).  Only fields are
data; the creation timestamp is the string `createdAt`. -/
structure Author where
  userName : String
deriving DecidableEq, Repr

/-- Article tag (`types.go`). -/
structure Tag where
  name : String
  slug : String
  tagType : String
deriving DecidableEq, Repr

/-- Article reaction (`types.go`). -/
structure Reaction where
  count : Int
  reactionType : String
deriving DecidableEq, Repr

/-- LeetCode discuss article (`types.go`). -/
structure Article where
  uuid : String
  title : String
  slug : String
  summary : String
  author : Author
  createdAt : String
  updatedAt : String
  articleType : String
  tags : List Tag
  reactions : List Reaction
deriving DecidableEq, Repr

/-- The fixed page size of `fetchArticlesAfterTime` (`batchSize := 100`). -/
def batchSize : Nat := 100

/-- An article the loop appends: its timestamp parses and is strictly after
the cutoff (`articleTime.After(cutoffTime)`). -/
def isKept (cutoff : GoTime) (a : Article) : Bool :=
  match timeParseRFC3339 a.createdAt with
  | some t => goAfter t cutoff
  | none => false

/-- An article that trips the boundary: its timestamp parses and is at or
before the cutoff. -/
def isOld (cutoff : GoTime) (a : Article) : Bool :=
  match timeParseRFC3339 a.createdAt with
  | some t => !goAfter t cutoff
  | none => false

/-- The inner `for _, article := range batch` loop of
`fetchArticlesAfterTime`: unparseable timestamps are skipped with
`continue`, articles strictly after the cutoff are appended, and the first
parseable article at or before the cutoff sets `foundOlderArticle` and
breaks out of the loop. -/
def scanBatch (cutoff : GoTime) : List Article → List Article → List Article × Bool
  | [], acc => (acc, false)
  | a :: rest, acc =>
    match timeParseRFC3339 a.createdAt with
    | none => scanBatch cutoff rest acc
    | some t =>
      if goAfter t cutoff then scanBatch cutoff rest (acc ++ [a])
      else (acc, true)

/-- The paging loop of `fetchArticlesAfterTime` (`leetcode_client.go`).
`fetchPage` models the collaborator `fetchDiscussArticlesWithSkip`, taking
`(count, skip)` and returning the page or the request's error.  The `fuel`
argument bounds the number of iterations observed (the Go loop is
unbounded); `none` means the loop was still running when fuel ran out. -/
def fetchLoop (fetchPage : Nat → Nat → Except String (List Article))
    (cutoff : GoTime) :
    Nat → Nat → List Article → Option (Except String (List Article))
  | 0, _, _ => none
  | fuel + 1, skip, acc =>
    match fetchPage batchSize skip with
    | .error e => some (.error e)
    | .ok batch =>
      if batch = [] then some (.ok acc)
      else
        match scanBatch cutoff batch acc with
        | (acc2, foundOlder) =>
          if foundOlder || batch.length < batchSize then some (.ok acc2)
          else fetchLoop fetchPage cutoff fuel (skip + batchSize) acc2

/-- `fetchArticlesAfterTime(cutoffTime)` with the page collaborator made
explicit: starts at `skip = 0` with an empty accumulator. -/
def fetchArticlesAfterTime (fetchPage : Nat → Nat → Except String (List Article))
    (cutoff : GoTime) (fuel : Nat) : Option (Except String (List Article)) :=
  fetchLoop fetchPage cutoff fuel 0 []

/-- Instrumented form of `fetchLoop` that also records the list of offsets
at which a page request is issued, in order.  Its result component agrees
with `fetchLoop` (`fetchLoopTrace_snd`). -/
def fetchLoopTrace (fetchPage : Nat → Nat → Except String (List Article))
    (cutoff : GoTime) :
    Nat → Nat → List Article →
      List Nat × Option (Except String (List Article))
  | 0, _, _ => ([], none)
  | fuel + 1, skip, acc =>
    match fetchPage batchSize skip with
    | .error e => ([skip], some (.error e))
    | .ok batch =>
      if batch = [] then ([skip], some (.ok acc))
      else
        match scanBatch cutoff batch acc with
        | (acc2, foundOlder) =>
          if foundOlder || batch.length < batchSize then ([skip], some (.ok acc2))
          else
            match fetchLoopTrace fetchPage cutoff fuel (skip + batchSize) acc2 with
            | (reqs, res) => (skip :: reqs, res)

/-- Instrumented `fetchArticlesAfterTime`. -/
def fetchArticlesAfterTimeTrace
    (fetchPage : Nat → Nat → Except String (List Article))
    (cutoff : GoTime) (fuel : Nat) :
    List Nat × Option (Except String (List Article)) :=
  fetchLoopTrace fetchPage cutoff fuel 0 []

/-- The page delivered at a given offset (empty where the request fails). -/
def pageOf (fetchPage : Nat → Nat → Except String (List Article))
    (skip : Nat) : List Article :=
  match fetchPage batchSize skip with
  | .ok b => b
  | .error _ => []

/-- Concatenation of the pages delivered at the given offsets, in order. -/
def flattenPages (fetchPage : Nat → Nat → Except String (List Article))
    (reqs : List Nat) : List Article :=
  (reqs.map (pageOf fetchPage)).flatten

/-- Go `unicode.IsSpace` on the characters relevant here (the Latin-1 fast
path of the Go implementation): space, tab, newline, vertical tab, form
feed, carriage return, NEL and NBSP. -/
def isSpaceChar (c : Char) : Bool :=
  c = ' ' || c = Char.ofNat 9 || c = Char.ofNat 10 || c = Char.ofNat 11 ||
    c = Char.ofNat 12 || c = Char.ofNat 13 || c = Char.ofNat 133 ||
    c = Char.ofNat 160

/-- Go `strings.TrimSpace` on character lists: drop leading and trailing
space characters. -/
def trimChars (cs : List Char) : List Char :=
  ((cs.dropWhile isSpaceChar).reverse.dropWhile isSpaceChar).reverse

/-- Go `strings.TrimSpace`. -/
def trimSpace (s : String) : String := ⟨trimChars s.data⟩

/-- `readLastProcessedTimestamp` (`utils.go`).  The checkpoint file is
modelled as `Option String`: `none` when the file does not exist (the
`os.IsNotExist` branch), `some data` for its contents otherwise. -/
def readLastProcessedTimestamp (file : Option String) : Except String GoTime :=
  match file with
  | none => .ok timeZero
  | some data =>
    let timestampStr := trimSpace data
    if timestampStr = "" then .ok timeZero
    else
      match timeParseRFC3339 timestampStr with
      | none => .error "failed to parse timestamp"
      | some t => .ok t

/-- `writeLastProcessedTimestamp` (`utils.go`): full overwrite of the file
with `t.Format(time.RFC3339)`.  The result is the new file contents. -/
def writeLastProcessedTimestamp (t : GoTime) : Option String :=
  some (formatRFC3339 t)

/-- The double-quote character. -/
def quotChar : Char := Char.ofNat 34

/-- The apostrophe character. -/
def aposChar : Char := Char.ofNat 39

/-- The character list of the entity `&amp;`. -/
def entAmp : List Char := ['&', 'a', 'm', 'p', ';']

/-- The character list of the entity `&lt;`. -/
def entLt : List Char := ['&', 'l', 't', ';']

/-- The character list of the entity `&gt;`. -/
def entGt : List Char := ['&', 'g', 't', ';']

/-- The character list of the entity `&quot;`. -/
def entQuot : List Char := ['&', 'q', 'u', 'o', 't', ';']

/-- The character list of the entity `&#39;`. -/
def entApos : List Char := ['&', '#', '3', '9', ';']

/-- Whether `pat` is a leading segment of `cs`. -/
def hasPfx : List Char → List Char → Bool
  | [], _ => true
  | _ :: _, [] => false
  | p :: ps, c :: cs => p = c && hasPfx ps cs

/-- Leftmost, non-overlapping replacement of a nonempty pattern, continuing
after the inserted replacement, as Go `strings.ReplaceAll` does. -/
def replaceAllAux (p : Char) (ps rep : List Char) : List Char → List Char
  | [] => []
  | c :: rest =>
    if hasPfx (p :: ps) (c :: rest) then
      rep ++ replaceAllAux p ps rep (rest.drop ps.length)
    else
      c :: replaceAllAux p ps rep rest
termination_by cs => cs.length
decreasing_by
  all_goals simp only [List.length_drop, List.length_cons]
  omega
  omega

/-- Go `strings.ReplaceAll` on character lists (for a nonempty pattern; the
empty-pattern behavior of Go is never used by this program). -/
def replaceAll (pat rep s : List Char) : List Char :=
  match pat with
  | [] => s
  | p :: ps => replaceAllAux p ps rep s

/-- `escapeHTML` (`email_sender.go`): the five sequential
`strings.ReplaceAll` calls, ampersand first. -/
def escapeHTML (s : List Char) : List Char :=
  replaceAll [aposChar] entApos
    (replaceAll [quotChar] entQuot
      (replaceAll ['>'] entGt
        (replaceAll ['<'] entLt
          (replaceAll ['&'] entAmp s))))

/-- Per-character view of `escapeHTML` (proved equal to it). -/
def escChar (c : Char) : List Char :=
  if c = '&' then entAmp
  else if c = '<' then entLt
  else if c = '>' then entGt
  else if c = quotChar then entQuot
  else if c = aposChar then entApos
  else [c]

/-- Replacing the five entities back: one left-to-right scan that replaces
each entity occurrence by its character (at any position at most one of the
five entities can match — their second characters differ — so this is the
unambiguous inverse reading). -/
def unescapeHTML : List Char → List Char
  | [] => []
  | c :: rest =>
    if hasPfx entAmp (c :: rest) then '&' :: unescapeHTML (rest.drop 4)
    else if hasPfx entLt (c :: rest) then '<' :: unescapeHTML (rest.drop 3)
    else if hasPfx entGt (c :: rest) then '>' :: unescapeHTML (rest.drop 3)
    else if hasPfx entQuot (c :: rest) then
      quotChar :: unescapeHTML (rest.drop 5)
    else if hasPfx entApos (c :: rest) then
      aposChar :: unescapeHTML (rest.drop 4)
    else c :: unescapeHTML rest
termination_by cs => cs.length
decreasing_by
  all_goals simp only [List.length_drop, List.length_cons]
  all_goals omega

/-- Well-formed `GoTime`: field ranges under which Go's RFC3339 rendering
is faithful (four-digit year, valid civil date and clock, an offset whose
hour part is below 24). -/
def WFTime (t : GoTime) : Prop :=
  t.year ≤ 9999 ∧ 1 ≤ t.month ∧ t.month ≤ 12 ∧ 1 ≤ t.day ∧
    t.day ≤ daysInMonth t.year t.month ∧ t.hour ≤ 23 ∧ t.minute ≤ 59 ∧
    t.second ≤ 59 ∧ t.nsec < 1000000000 ∧ t.offsetMin.natAbs ≤ 23 * 60 + 59

instance (t : GoTime) : Decidable (WFTime t) := by
  unfold WFTime; infer_instance

instance {ε α : Type} [DecidableEq ε] [DecidableEq α] : DecidableEq (Except ε α) :=
  fun a b =>
    match a, b with
    | .ok x, .ok y => if h : x = y then isTrue (by rw [h]) else isFalse (by simp [h])
    | .error e, .error f =>
      if h : e = f then isTrue (by rw [h]) else isFalse (by simp [h])
    | .ok _, .error _ => isFalse (by simp)
    | .error _, .ok _ => isFalse (by simp)

/-- A concrete article with the given creation timestamp, all other fields
empty. -/
def mkArt (ts : String) : Article :=
  ⟨"", "", "", "", ⟨""⟩, ts, "", "", [], []⟩

/-- Article created 10 seconds after the epoch. -/
def artT10 : Article := mkArt "1970-01-01T00:00:10Z"

/-- Article created 9 seconds after the epoch. -/
def artT9 : Article := mkArt "1970-01-01T00:00:09Z"

/-- Article created 5 seconds after the epoch. -/
def artT5 : Article := mkArt "1970-01-01T00:00:05Z"

/-- Article whose creation timestamp does not parse. -/
def artBad : Article := mkArt "oops"

/-- Cutoff 7 seconds after the epoch. -/
def cutoff7 : GoTime := ⟨1970, 1, 1, 0, 0, 7, 0, 0⟩

/-- A feed whose only page is `page`, empty from the second page on. -/
def pageFeed (page : List Article) (_ skip : Nat) :
    Except String (List Article) :=
  if skip = 0 then .ok page else .ok []

/-- A feed whose every request fails. -/
def errFeed (_ _ : Nat) : Except String (List Article) :=
  .error "failed to send request: connection refused"

/-- A full first page of 100 new articles. -/
def fullPage100 : List Article := List.replicate 100 artT10

/-- A feed that delivers a full first page and fails on the second request,
with the same error value as `errFeed`. -/
def fullThenErrFeed (_ skip : Nat) : Except String (List Article) :=
  if skip = 0 then .ok fullPage100
  else .error "failed to send request: connection refused"

lemma scanBatch_mem (c : GoTime) (b : List Article) :
    ∀ acc, ∃ k, (scanBatch c b acc).1 = acc ++ k ∧ k.Sublist b ∧
      ∀ a ∈ k, isKept c a = true := by
  induction b with
  | nil => intro acc; exact ⟨[], by simp [scanBatch], by simp, by simp⟩
  | cons a rest ih =>
    intro acc
    cases hp : timeParseRFC3339 a.createdAt with
    | none =>
      obtain ⟨k, h1, h2, h3⟩ := ih acc
      refine ⟨k, ?_, h2.cons a, h3⟩
      simpa [scanBatch, hp] using h1
    | some t =>
      cases hg : goAfter t c with
      | true =>
        obtain ⟨k, h1, h2, h3⟩ := ih (acc ++ [a])
        refine ⟨a :: k, ?_, h2.cons₂ a, ?_⟩
        · rw [show (scanBatch c (a :: rest) acc).1
              = (scanBatch c rest (acc ++ [a])).1 by simp [scanBatch, hp, hg]]
          rw [h1]; simp
        · intro x hx
          rcases List.mem_cons.mp hx with hx | hx
          · subst hx; simp [isKept, hp, hg]
          · exact h3 x hx
      | false =>
        refine ⟨[], ?_, by simp, by simp⟩
        simp [scanBatch, hp, hg]

lemma scanBatch_snd (c : GoTime) (b : List Article) :
    ∀ acc, (scanBatch c b acc).2 = b.any (isOld c) := by
  induction b with
  | nil => intro acc; simp [scanBatch]
  | cons a rest ih =>
    intro acc
    cases hp : timeParseRFC3339 a.createdAt with
    | none => simp [scanBatch, hp, isOld, ih]
    | some t =>
      cases hg : goAfter t c with
      | true => simp [scanBatch, hp, hg, isOld, ih]
      | false => simp [scanBatch, hp, hg, isOld]

lemma fetchLoop_ok_mem (f : Nat → Nat → Except String (List Article))
    (c : GoTime) :
    ∀ fuel skip acc arts, fetchLoop f c fuel skip acc = some (.ok arts) →
      ∀ a ∈ arts, a ∈ acc ∨ isKept c a = true := by
  intro fuel
  induction fuel with
  | zero => intro skip acc arts h; simp [fetchLoop] at h
  | succ n ih =>
    intro skip acc arts h a ha
    cases hf : f batchSize skip with
    | error e => simp only [fetchLoop, hf] at h; simp at h
    | ok batch =>
      simp only [fetchLoop, hf] at h
      by_cases hb : batch = []
      · rw [if_pos hb] at h
        simp only [Option.some.injEq, Except.ok.injEq] at h
        exact Or.inl (h ▸ ha)
      · rw [if_neg hb] at h
        obtain ⟨k, hk1, hk2, hk3⟩ := scanBatch_mem c batch acc
        rcases hsb : scanBatch c batch acc with ⟨acc2, fo⟩
        rw [hsb] at h
        rw [hsb] at hk1
        simp only at h hk1
        by_cases hstop : (fo || decide (batch.length < batchSize)) = true
        · rw [if_pos hstop] at h
          simp only [Option.some.injEq, Except.ok.injEq] at h
          subst h
          rcases List.mem_append.mp (hk1 ▸ ha) with hx | hx
          · exact Or.inl hx
          · exact Or.inr (hk3 a hx)
        · rw [if_neg hstop] at h
          rcases ih (skip + batchSize) acc2 arts h a ha with hx | hx
          · rcases List.mem_append.mp (hk1 ▸ hx) with hy | hy
            · exact Or.inl hy
            · exact Or.inr (hk3 a hy)
          · exact Or.inr hx

/-- C1: every Item in a sequence returned successfully by
`fetchArticlesAfterTime` has a creation timestamp that parses and is
strictly after the cutoff, and no Item whose timestamp is at or before the
cutoff appears in the result. -/
theorem fetchArticlesAfterTime_all_after_cutoff
    (f : Nat → Nat → Except String (List Article)) (c : GoTime) (fuel : Nat)
    (arts : List Article)
    (h : fetchArticlesAfterTime f c fuel = some (.ok arts)) :
    ∀ a ∈ arts,
      (∃ t, timeParseRFC3339 a.createdAt = some t ∧ goAfter t c = true) ∧
        isOld c a = false := by
  intro a ha
  rcases fetchLoop_ok_mem f c fuel 0 [] arts h a ha with h' | h'
  · simp at h'
  · cases hp : timeParseRFC3339 a.createdAt with
    | none => simp [isKept, hp] at h'
    | some t =>
      simp only [isKept, hp] at h'
      exact ⟨⟨t, rfl, h'⟩, by simp [isOld, hp, h']⟩

/-- Witness for C1 at a concrete feed. -/
theorem fetchArticlesAfterTime_all_after_cutoff_witness :
    ∃ t, timeParseRFC3339 artT10.createdAt = some t ∧
      goAfter t cutoff7 = true := by
  have h : fetchArticlesAfterTime (pageFeed [artT10]) cutoff7 2 =
      some (.ok [artT10]) := by decide
  exact ((fetchArticlesAfterTime_all_after_cutoff (pageFeed [artT10]) cutoff7 2
    [artT10] h) artT10 (by simp)).1

lemma scanBatch_break (c : GoTime) (old : Article) (hold : isOld c old = true) :
    ∀ pre post acc, (∀ a ∈ pre, isOld c a = false) →
      scanBatch c (pre ++ old :: post) acc =
        (acc ++ pre.filter (isKept c), true) := by
  intro pre
  induction pre with
  | nil =>
    intro post acc _
    cases hp : timeParseRFC3339 old.createdAt with
    | none => simp [isOld, hp] at hold
    | some t =>
      simp only [isOld, hp, Bool.not_eq_true'] at hold
      simp [scanBatch, hp, hold]
  | cons x pre' ih =>
    intro post acc hpre
    have hx : isOld c x = false := hpre x (by simp)
    cases hp : timeParseRFC3339 x.createdAt with
    | none =>
      have : isKept c x = false := by simp [isKept, hp]
      simp only [List.cons_append, scanBatch, hp, List.append_eq]
      rw [ih post acc (fun a ha => hpre a (by simp [ha]))]
      simp [List.filter_cons, this]
    | some t =>
      have hg : goAfter t c = true := by
        by_contra hng
        simp only [isOld, hp, Bool.not_eq_true'] at hx
        simp [Bool.not_eq_true] at hng
        rw [hng] at hx
        simp at hx
      have hk : isKept c x = true := by simp [isKept, hp, hg]
      simp only [List.cons_append, scanBatch, hp, hg, if_pos, List.append_eq]
      rw [ih post (acc ++ [x]) (fun a ha => hpre a (by simp [ha]))]
      simp [List.filter_cons, hk]

/-- C2 counterexample: with first page `[t=10, t=5, t=9]` and cutoff 7, the
scan stops the instant the `t=5` item is seen — the result is `[t=10]`
alone, although the later `t=9` item is strictly after the cutoff. -/
theorem fetchArticlesAfterTime_full_scan_refuted :
    fetchArticlesAfterTime (pageFeed [artT10, artT5, artT9]) cutoff7 2 =
      some (.ok [artT10]) ∧
    isKept cutoff7 artT9 = true ∧ artT9 ∉ [artT10] := by
  refine ⟨by decide, by decide, by decide⟩

/-- C2 (amended): when a page contains an Item at or before the cutoff,
`fetchArticlesAfterTime` aborts the scan of that page at the first such
Item: the Items before it that are strictly after the cutoff are kept, but
every Item after it in the same page is dropped — even one strictly after
the cutoff — and no further pages are fetched. -/
theorem fetchArticlesAfterTime_aborts_at_first_old
    (f : Nat → Nat → Except String (List Article)) (c : GoTime) (fuel : Nat)
    (pre post : List Article) (old : Article)
    (hf : f batchSize 0 = .ok (pre ++ old :: post))
    (hpre : ∀ a ∈ pre, isOld c a = false) (hold : isOld c old = true) :
    fetchArticlesAfterTime f c (fuel + 1) =
      some (.ok (pre.filter (isKept c))) := by
  unfold fetchArticlesAfterTime
  simp only [fetchLoop, hf]
  have hne : pre ++ old :: post ≠ [] := by simp
  rw [if_neg hne, scanBatch_break c old hold pre post [] hpre]
  simp

/-- Witness for the amended C2 at the concrete straddling page. -/
theorem fetchArticlesAfterTime_aborts_at_first_old_witness :
    fetchArticlesAfterTime (pageFeed [artT10, artT5, artT9]) cutoff7 2 =
      some (.ok ([artT10].filter (isKept cutoff7))) := by
  exact fetchArticlesAfterTime_aborts_at_first_old
    (pageFeed [artT10, artT5, artT9]) cutoff7 1 [artT10] [artT9] artT5
    (by decide) (by decide) (by decide)

lemma fetchLoopTrace_snd (f : Nat → Nat → Except String (List Article))
    (c : GoTime) :
    ∀ fuel skip acc,
      (fetchLoopTrace f c fuel skip acc).2 = fetchLoop f c fuel skip acc := by
  intro fuel
  induction fuel with
  | zero => intro skip acc; rfl
  | succ n ih =>
    intro skip acc
    cases hf : f batchSize skip with
    | error e => simp [fetchLoopTrace, fetchLoop, hf]
    | ok batch =>
      simp only [fetchLoopTrace, fetchLoop, hf]
      by_cases hb : batch = []
      · simp [hb]
      · rw [if_neg hb, if_neg hb]
        rcases hsb : scanBatch c batch acc with ⟨acc2, fo⟩
        dsimp only
        by_cases hstop : (fo || decide (batch.length < batchSize)) = true
        · rw [if_pos hstop, if_pos hstop]
        · rw [if_neg hstop, if_neg hstop]
          rcases hrec : fetchLoopTrace f c n (skip + batchSize) acc2 with ⟨reqs, res⟩
          have h2 := ih (skip + batchSize) acc2
          rw [hrec] at h2
          simpa using h2

lemma fetchLoopTrace_fst_head (f : Nat → Nat → Except String (List Article))
    (c : GoTime) (n skip : Nat) (acc : List Article) :
    ∃ rest, (fetchLoopTrace f c (n + 1) skip acc).1 = skip :: rest := by
  cases hf : f batchSize skip with
  | error e => exact ⟨[], by simp [fetchLoopTrace, hf]⟩
  | ok batch =>
    simp only [fetchLoopTrace, hf]
    by_cases hb : batch = []
    · exact ⟨[], by rw [if_pos hb]⟩
    · rw [if_neg hb]
      rcases hsb : scanBatch c batch acc with ⟨acc2, fo⟩
      dsimp only
      by_cases hstop : (fo || decide (batch.length < batchSize)) = true
      · exact ⟨[], by rw [if_pos hstop]⟩
      · rw [if_neg hstop]
        rcases hrec : fetchLoopTrace f c n (skip + batchSize) acc2 with ⟨reqs, res⟩
        exact ⟨reqs, by simp⟩

lemma fetchLoopTrace_succ (f : Nat → Nat → Except String (List Article))
    (c : GoTime) (fuel skip : Nat) (acc : List Article) :
    fetchLoopTrace f c (fuel + 1) skip acc =
      match f batchSize skip with
      | .error e => ([skip], some (.error e))
      | .ok batch =>
        if batch = [] then ([skip], some (.ok acc))
        else
          match scanBatch c batch acc with
          | (acc2, foundOlder) =>
            if foundOlder || batch.length < batchSize then
              ([skip], some (.ok acc2))
            else
              match fetchLoopTrace f c fuel (skip + batchSize) acc2 with
              | (reqs, res) => (skip :: reqs, res) := rfl

/-- C3: the paging loop continues exactly when the current page is `.ok`,
of full length `batchSize`, and has no item at or before the cutoff — in
which case the next request is issued at `skip + batchSize`; if the
boundary was crossed or the page is short, no further request is made.
(Pages are assumed no longer than the requested size, as the collaborator
guarantees.) -/
theorem fetchArticlesAfterTime_paging_condition
    (f : Nat → Nat → Except String (List Article)) (c : GoTime)
    (fuel skip : Nat) (acc : List Article) (b : List Article)
    (hb : f batchSize skip = .ok b) (hlen : b.length ≤ batchSize) :
    ((b.length = batchSize ∧ ∀ a ∈ b, isOld c a = false) →
      (fetchLoopTrace f c (fuel + 2) skip acc).1.take 2 =
        [skip, skip + batchSize]) ∧
    (¬(b.length = batchSize ∧ ∀ a ∈ b, isOld c a = false) →
      (fetchLoopTrace f c (fuel + 2) skip acc).1 = [skip]) := by
  constructor
  · rintro ⟨hfull, hnold⟩
    have hbne : b ≠ [] := by
      intro h0; rw [h0] at hfull; simp [batchSize] at hfull
    rw [fetchLoopTrace_succ, hb]
    dsimp only
    rw [if_neg hbne]
    rcases hsb : scanBatch c b acc with ⟨acc2, fo⟩
    dsimp only
    have h1 := scanBatch_snd c b acc
    rw [hsb] at h1
    dsimp only at h1
    have hfo : fo = false := by
      rw [h1, List.any_eq_false]
      intro x hx
      simp [hnold x hx]
    have hcond : ¬((fo || decide (b.length < batchSize)) = true) := by
      simp [hfo, hfull]
    rw [if_neg hcond]
    obtain ⟨rest, hr⟩ := fetchLoopTrace_fst_head f c fuel (skip + batchSize) acc2
    rcases hrec : fetchLoopTrace f c (fuel + 1) (skip + batchSize) acc2 with ⟨reqs, res⟩
    rw [hrec] at hr
    dsimp only at hr ⊢
    rw [hr]
    rfl
  · intro hnot
    rw [fetchLoopTrace_succ, hb]
    dsimp only
    by_cases hbe : b = []
    · rw [if_pos hbe]
    · rw [if_neg hbe]
      rcases hsb : scanBatch c b acc with ⟨acc2, fo⟩
      dsimp only
      have h1 := scanBatch_snd c b acc
      rw [hsb] at h1
      dsimp only at h1
      have hcond : (fo || decide (b.length < batchSize)) = true := by
        by_cases hany : b.any (isOld c) = true
        · simp [h1, hany]
        · have hall : ∀ a ∈ b, isOld c a = false := by
            intro x hx
            by_contra hxx
            apply hany
            rw [List.any_eq_true]
            exact ⟨x, hx, by simpa using hxx⟩
          have hne : b.length ≠ batchSize := fun hl => hnot ⟨hl, hall⟩
          have hlt : b.length < batchSize := lt_of_le_of_ne hlen hne
          simp [hlt]
      rw [if_pos hcond]

/-- Witness for C3: a full first page of new items triggers a second
request at offset `batchSize`. -/
theorem fetchArticlesAfterTime_paging_condition_witness :
    (fetchLoopTrace fullThenErrFeed cutoff7 3 0 []).1.take 2 =
      [0, 0 + batchSize] :=
  (fetchArticlesAfterTime_paging_condition fullThenErrFeed cutoff7 1 0 []
    fullPage100 (by decide) (by decide)).1 ⟨by decide, by decide⟩

/-- C4 counterexample: two runs whose page requests fail at different
offsets (0 and 100) return the identical error value, so the error
returned by `fetchArticlesAfterTime` does not carry the attempted skip
offset (the offset is printed to progress output only). -/
theorem fetchError_no_skip_offset_refuted :
    fetchArticlesAfterTimeTrace errFeed cutoff7 5 =
      ([0], some (.error "failed to send request: connection refused")) ∧
    fetchArticlesAfterTimeTrace fullThenErrFeed cutoff7 5 =
      ([0, 100], some (.error "failed to send request: connection refused")) :=
  ⟨by decide, by decide⟩

/-- C4 (amended): a failed page request at any offset — including page 2
after a successful page 1 — aborts the whole operation: the collaborator's
error value is returned unchanged and the already-accumulated items are
discarded, never returned as partial success. -/
theorem fetchArticlesAfterTime_error_discards_partial
    (f : Nat → Nat → Except String (List Article)) (c : GoTime)
    (fuel skip : Nat) (acc : List Article) (e : String)
    (hf : f batchSize skip = .error e) :
    fetchLoop f c (fuel + 1) skip acc = some (.error e) := by
  simp [fetchLoop, hf]

/-- Witness for the amended C4: failure on page 2 after a successful full
page 1, with the 100 accumulated items discarded. -/
theorem fetchArticlesAfterTime_error_discards_partial_witness :
    fetchLoop fullThenErrFeed cutoff7 1 100 fullPage100 =
      some (.error "failed to send request: connection refused") :=
  fetchArticlesAfterTime_error_discards_partial fullThenErrFeed cutoff7 0 100
    fullPage100 "failed to send request: connection refused" (by decide)

lemma fetchLoopTrace_ok_sublist (f : Nat → Nat → Except String (List Article))
    (c : GoTime) :
    ∀ fuel skip acc reqs arts,
      fetchLoopTrace f c fuel skip acc = (reqs, some (.ok arts)) →
      ∃ t, arts = acc ++ t ∧ t.Sublist (flattenPages f reqs) := by
  intro fuel
  induction fuel with
  | zero =>
    intro skip acc reqs arts h
    simp [fetchLoopTrace] at h
  | succ n ih =>
    intro skip acc reqs arts h
    cases hf : f batchSize skip with
    | error e =>
      rw [fetchLoopTrace_succ, hf] at h
      simp at h
    | ok batch =>
      rw [fetchLoopTrace_succ, hf] at h
      dsimp only at h
      by_cases hbe : batch = []
      · rw [if_pos hbe] at h
        simp only [Prod.mk.injEq, Option.some.injEq, Except.ok.injEq] at h
        obtain ⟨h1, h2⟩ := h
        exact ⟨[], by simp [← h2], by simp⟩
      · rw [if_neg hbe] at h
        obtain ⟨k, hk1, hk2, hk3⟩ := scanBatch_mem c batch acc
        rcases hsb : scanBatch c batch acc with ⟨acc2, fo⟩
        rw [hsb] at h hk1
        dsimp only at h hk1
        by_cases hstop : (fo || decide (batch.length < batchSize)) = true
        · rw [if_pos hstop] at h
          simp only [Prod.mk.injEq, Option.some.injEq, Except.ok.injEq] at h
          obtain ⟨h1, h2⟩ := h
          refine ⟨k, by rw [← h2, hk1], ?_⟩
          rw [← h1]
          have hfp : flattenPages f [skip] = batch := by
            simp [flattenPages, pageOf, hf]
          rw [hfp]
          exact hk2
        · rw [if_neg hstop] at h
          rcases hrec : fetchLoopTrace f c n (skip + batchSize) acc2 with ⟨reqs', res'⟩
          rw [hrec] at h
          dsimp only at h
          simp only [Prod.mk.injEq] at h
          obtain ⟨h1, h2⟩ := h
          obtain ⟨t', ht1, ht2⟩ := ih (skip + batchSize) acc2 reqs' arts
            (by rw [hrec, h2])
          refine ⟨k ++ t', ?_, ?_⟩
          · rw [ht1, hk1, List.append_assoc]
          · rw [← h1]
            have hfp : flattenPages f (skip :: reqs') =
                batch ++ flattenPages f reqs' := by
              simp [flattenPages, pageOf, hf]
            rw [hfp]
            exact hk2.append ht2

/-- C5: the sequence returned by a successful run is a subsequence of the
concatenation of the fetched pages in request order, with each page's
internal order intact — the fetcher never reorders items. -/
theorem fetchArticlesAfterTime_order_preserved
    (f : Nat → Nat → Except String (List Article)) (c : GoTime) (fuel : Nat)
    (reqs : List Nat) (arts : List Article)
    (h : fetchArticlesAfterTimeTrace f c fuel = (reqs, some (.ok arts))) :
    arts.Sublist (flattenPages f reqs) := by
  obtain ⟨t, ht1, ht2⟩ := fetchLoopTrace_ok_sublist f c fuel 0 [] reqs arts h
  simpa [ht1] using ht2

/-- Witness for C5 at a concrete single-page feed. -/
theorem fetchArticlesAfterTime_order_preserved_witness :
    [artT10, artT9].Sublist
      (flattenPages (pageFeed [artT10, artBad, artT9]) [0]) :=
  fetchArticlesAfterTime_order_preserved (pageFeed [artT10, artBad, artT9])
    cutoff7 2 [0] [artT10, artT9] (by decide)

lemma fetchLoop_no_error (f : Nat → Nat → Except String (List Article))
    (c : GoTime) (hok : ∀ s, ∃ b, f batchSize s = .ok b) :
    ∀ fuel skip acc e, fetchLoop f c fuel skip acc ≠ some (.error e) := by
  intro fuel
  induction fuel with
  | zero => intro skip acc e h; simp [fetchLoop] at h
  | succ n ih =>
    intro skip acc e h
    obtain ⟨b, hb⟩ := hok skip
    simp only [fetchLoop, hb] at h
    by_cases hbe : b = []
    · rw [if_pos hbe] at h; simp at h
    · rw [if_neg hbe] at h
      rcases hsb : scanBatch c b acc with ⟨acc2, fo⟩
      rw [hsb] at h
      dsimp only at h
      by_cases hstop : (fo || decide (b.length < batchSize)) = true
      · rw [if_pos hstop] at h; simp at h
      · rw [if_neg hstop] at h
        exact ih (skip + batchSize) acc2 e h

/-- C6: an Item whose creation timestamp fails to parse is excluded but
does not abort the scan — removing it from a page leaves the scan result
unchanged — and unparseable timestamps never make `fetchArticlesAfterTime`
return an error (errors arise only from failed page requests). -/
theorem unparseable_item_skipped (a : Article)
    (h : timeParseRFC3339 a.createdAt = none) :
    (∀ (c : GoTime) (xs ys acc : List Article),
      scanBatch c (xs ++ a :: ys) acc = scanBatch c (xs ++ ys) acc) ∧
    (∀ (f : Nat → Nat → Except String (List Article)) (c : GoTime)
      (fuel : Nat) (e : String), (∀ s, ∃ b, f batchSize s = .ok b) →
      fetchArticlesAfterTime f c fuel ≠ some (.error e)) := by
  constructor
  · intro c xs
    induction xs with
    | nil => intro ys acc; simp [scanBatch, h]
    | cons x xs' ih =>
      intro ys acc
      cases hp : timeParseRFC3339 x.createdAt with
      | none =>
        simp only [List.cons_append, scanBatch, hp, List.append_eq]
        exact ih ys acc
      | some t =>
        cases hg : goAfter t c with
        | true =>
          simp only [List.cons_append, scanBatch, hp, hg, List.append_eq,
            if_pos]
          exact ih ys (acc ++ [x])
        | false => simp [scanBatch, hp, hg]
  · intro f c fuel e hok
    exact fetchLoop_no_error f c hok fuel 0 [] e

/-- Witness for C6: the bad-timestamp article is dropped from the scan of
a concrete page without disturbing the rest. -/
theorem unparseable_item_skipped_witness :
    timeParseRFC3339 artBad.createdAt = none ∧
    scanBatch cutoff7 ([artT10] ++ artBad :: [artT9]) [] =
      scanBatch cutoff7 ([artT10] ++ [artT9]) [] := by
  refine ⟨by decide, ?_⟩
  exact (unparseable_item_skipped artBad (by decide)).1 cutoff7 [artT10] [artT9] []

/-- C7: an empty first page stops the loop at once: the result is the
empty sequence as a success, and no further page request is issued. -/
theorem empty_first_page_success
    (f : Nat → Nat → Except String (List Article)) (c : GoTime) (fuel : Nat)
    (h : f batchSize 0 = .ok []) :
    fetchArticlesAfterTimeTrace f c (fuel + 1) = ([0], some (.ok [])) := by
  unfold fetchArticlesAfterTimeTrace
  rw [fetchLoopTrace_succ, h]
  rfl

/-- Witness for C7 at the concrete empty feed. -/
theorem empty_first_page_success_witness :
    fetchArticlesAfterTimeTrace (pageFeed []) cutoff7 1 =
      ([0], some (.ok [])) :=
  empty_first_page_success (pageFeed []) cutoff7 0 (by decide)

/-- C8 counterexample: a checkpoint file that exists with empty content —
content that does not parse as a timestamp — makes
`readLastProcessedTimestamp` return the zero "no checkpoint" value with no
error, a silently defaulted value. -/
theorem readLastProcessedTimestamp_empty_content_refuted :
    readLastProcessedTimestamp (some "") = .ok timeZero ∧
    timeParseRFC3339 "" = none := ⟨by decide, by decide⟩

/-- C8 (amended): a missing checkpoint file yields the zero "no
checkpoint" value with no error; a file whose content trims to empty also
yields the zero value with no error; a file whose trimmed content is
nonempty but unparseable yields an error; and a file whose trimmed content
parses yields exactly the parsed timestamp. -/
theorem readLastProcessedTimestamp_behavior :
    readLastProcessedTimestamp none = .ok timeZero ∧
    (∀ s, trimSpace s = "" →
      readLastProcessedTimestamp (some s) = .ok timeZero) ∧
    (∀ s, trimSpace s ≠ "" → timeParseRFC3339 (trimSpace s) = none →
      readLastProcessedTimestamp (some s) =
        .error "failed to parse timestamp") ∧
    (∀ s t, trimSpace s ≠ "" → timeParseRFC3339 (trimSpace s) = some t →
      readLastProcessedTimestamp (some s) = .ok t) := by
  refine ⟨rfl, ?_, ?_, ?_⟩
  · intro s hs
    simp [readLastProcessedTimestamp, hs]
  · intro s hs hp
    simp [readLastProcessedTimestamp, hs, hp]
  · intro s t hs hp
    simp [readLastProcessedTimestamp, hs, hp]

/-- Witness for the amended C8: a nonempty unparseable checkpoint file is
an error. -/
theorem readLastProcessedTimestamp_behavior_witness :
    trimSpace "garbage" ≠ "" ∧
    timeParseRFC3339 (trimSpace "garbage") = none ∧
    readLastProcessedTimestamp (some "garbage") =
      .error "failed to parse timestamp" := by
  refine ⟨by decide, by decide, ?_⟩
  exact readLastProcessedTimestamp_behavior.2.2.1 "garbage" (by decide)
    (by decide)

/-- C9 counterexample: a timestamp with sub-second precision does not
round-trip — the RFC3339 rendering drops the fractional second, so
reading back yields the truncated timestamp, not the original. -/
theorem checkpoint_roundtrip_subsecond_refuted :
    readLastProcessedTimestamp
        (writeLastProcessedTimestamp ⟨1970, 1, 1, 0, 0, 0, 500000000, 0⟩) =
      .ok ⟨1970, 1, 1, 0, 0, 0, 0, 0⟩ ∧
    (⟨1970, 1, 1, 0, 0, 0, 0, 0⟩ : GoTime) ≠
      ⟨1970, 1, 1, 0, 0, 0, 500000000, 0⟩ := ⟨by decide, by decide⟩

lemma readDigit_digitChar (d : Nat) (h : d < 10) :
    readDigit (digitChar d) = some d := by
  interval_cases d <;> decide

lemma read2_pad2 (n : Nat) (h : n < 100) (rest : List Char) :
    read2 (pad2 n ++ rest) = some (n, rest) := by
  have h1 : n / 10 % 10 < 10 := Nat.mod_lt _ (by norm_num)
  have h2 : n % 10 < 10 := Nat.mod_lt _ (by norm_num)
  simp only [pad2, List.cons_append, List.nil_append, read2,
    readDigit_digitChar _ h1, readDigit_digitChar _ h2]
  simp only [Option.some.injEq, Prod.mk.injEq]
  exact ⟨by omega, trivial⟩

lemma read4_pad4 (n : Nat) (h : n < 10000) (rest : List Char) :
    read4 (pad4 n ++ rest) = some (n, rest) := by
  have h1 : n / 1000 % 10 < 10 := Nat.mod_lt _ (by norm_num)
  have h2 : n / 100 % 10 < 10 := Nat.mod_lt _ (by norm_num)
  have h3 : n / 10 % 10 < 10 := Nat.mod_lt _ (by norm_num)
  have h4 : n % 10 < 10 := Nat.mod_lt _ (by norm_num)
  simp only [pad4, List.cons_append, List.nil_append, read4,
    readDigit_digitChar _ h1, readDigit_digitChar _ h2,
    readDigit_digitChar _ h3, readDigit_digitChar _ h4]
  simp only [Option.some.injEq, Prod.mk.injEq]
  exact ⟨by omega, trivial⟩

lemma expectCh_cons (c : Char) (rest : List Char) :
    expectCh c (c :: rest) = some rest := by
  simp [expectCh]

lemma parseFrac_not_dot (c : Char) (rest : List Char) (hc : c ≠ '.') :
    parseFrac (c :: rest) = some (0, c :: rest) := by
  unfold parseFrac
  split
  · rename_i heq
    cases heq
    exact absurd rfl hc
  · rfl

lemma parseFrac_offsetChars (off : Int) :
    parseFrac (offsetChars off) = some (0, offsetChars off) := by
  rw [offsetChars]
  by_cases h0 : off = 0
  · rw [if_pos h0]
    exact parseFrac_not_dot 'Z' [] (by decide)
  · rw [if_neg h0]
    by_cases hneg : off < 0
    · rw [if_pos hneg]
      exact parseFrac_not_dot '-' _ (by decide)
    · rw [if_neg hneg]
      exact parseFrac_not_dot '+' _ (by decide)

lemma parseOffset_offsetChars (off : Int) (h : off.natAbs ≤ 23 * 60 + 59)
    (rest : List Char) :
    parseOffset (offsetChars off ++ rest) = some (off, rest) := by
  have hh : off.natAbs / 60 < 100 := by omega
  have hm : off.natAbs % 60 < 100 := by omega
  have hh23 : off.natAbs / 60 ≤ 23 := by omega
  have hm59 : off.natAbs % 60 ≤ 59 := by omega
  rw [offsetChars]
  by_cases h0 : off = 0
  · rw [if_pos h0, h0]
    simp [parseOffset]
  · rw [if_neg h0]
    by_cases hneg : off < 0
    · rw [if_pos hneg]
      simp only [List.cons_append, List.append_assoc, List.cons_append]
      simp only [parseOffset, read2_pad2 _ hh, expectCh_cons,
        read2_pad2 _ hm]
      rw [if_pos ⟨hh23, hm59⟩]
      simp only [Option.some.injEq, Prod.mk.injEq]
      refine ⟨?_, trivial⟩
      have := Nat.div_add_mod off.natAbs 60
      omega
    · rw [if_neg hneg]
      simp only [List.cons_append, List.append_assoc, List.cons_append]
      simp only [parseOffset, read2_pad2 _ hh, expectCh_cons,
        read2_pad2 _ hm]
      rw [if_pos ⟨hh23, hm59⟩]
      simp only [Option.some.injEq, Prod.mk.injEq]
      refine ⟨?_, trivial⟩
      have := Nat.div_add_mod off.natAbs 60
      omega

lemma parseOffset_offsetChars_nil (off : Int)
    (h : off.natAbs ≤ 23 * 60 + 59) :
    parseOffset (offsetChars off) = some (off, []) := by
  have h2 := parseOffset_offsetChars off h []
  rwa [List.append_nil] at h2

lemma parseDatePart_pad (y mo d : Nat) (hy : y < 10000) (hmo : mo < 100)
    (hd : d < 100) (rest : List Char) :
    parseDatePart (pad4 y ++ '-' :: (pad2 mo ++ '-' :: (pad2 d ++ rest))) =
      some (y, mo, d, rest) := by
  simp only [parseDatePart, read4_pad4 y hy, expectCh_cons,
    read2_pad2 mo hmo, read2_pad2 d hd]

lemma parseClockPart_pad (h mi s : Nat) (hh : h < 100) (hmi : mi < 100)
    (hs : s < 100) (rest : List Char) :
    parseClockPart
        ('T' :: (pad2 h ++ ':' :: (pad2 mi ++ ':' :: (pad2 s ++ rest)))) =
      some (h, mi, s, rest) := by
  simp only [parseClockPart, expectCh_cons, read2_pad2 h hh,
    read2_pad2 mi hmi, read2_pad2 s hs]

lemma parseFracOffset_offsetChars (off : Int)
    (hoff : off.natAbs ≤ 23 * 60 + 59) :
    parseFracOffset (offsetChars off) = some (0, off, []) := by
  simp only [parseFracOffset, parseFrac_offsetChars,
    parseOffset_offsetChars_nil off hoff]

lemma parse_format_roundtrip (t : GoTime) (hwf : WFTime t)
    (hns : t.nsec = 0) :
    parseRFC3339Chars (formatRFC3339Chars t) = some t := by
  rcases t with ⟨y, mo, d, hh, mi, ss, ns, off⟩
  obtain ⟨h1, h2, h3, h4, h5, h6, h7, h8, h9, h10⟩ := hwf
  dsimp only at h1 h2 h3 h4 h5 h6 h7 h8 h9 h10 hns
  subst hns
  have hd31 : d < 100 := by
    have hdm : daysInMonth y mo ≤ 31 := by
      unfold daysInMonth
      split
      · split <;> omega
      · split <;> omega
    omega
  rw [formatRFC3339Chars]
  dsimp only
  rw [parseRFC3339Chars]
  simp only [parseDatePart_pad y mo d (by omega) (by omega) hd31,
    parseClockPart_pad hh mi ss (by omega) (by omega) (by omega),
    parseFracOffset_offsetChars off h10]
  rw [if_pos ⟨trivial, h2, h3, h4, h5, h6, h7, h8⟩]

lemma digitChar_not_space (d : Nat) : isSpaceChar (digitChar d) = false := by
  unfold digitChar
  split <;> decide

lemma pad2_not_space (n : Nat) : ∀ c ∈ pad2 n, isSpaceChar c = false := by
  intro c hc
  rcases List.mem_cons.mp hc with h | h
  · rw [h]; exact digitChar_not_space _
  · rcases List.mem_cons.mp h with h2 | h2
    · rw [h2]; exact digitChar_not_space _
    · simp at h2

lemma pad4_not_space (n : Nat) : ∀ c ∈ pad4 n, isSpaceChar c = false := by
  intro c hc
  simp only [pad4, List.mem_cons, List.not_mem_nil, or_false] at hc
  rcases hc with h | h | h | h <;> (rw [h]; exact digitChar_not_space _)

lemma offsetChars_not_space (off : Int) :
    ∀ c ∈ offsetChars off, isSpaceChar c = false := by
  intro c hc
  rw [offsetChars] at hc
  by_cases h0 : off = 0
  · rw [if_pos h0] at hc
    simp at hc
    rw [hc]; decide
  · rw [if_neg h0] at hc
    rcases List.mem_cons.mp hc with h | h
    · rw [h]
      by_cases hneg : off < 0
      · rw [if_pos hneg]; decide
      · rw [if_neg hneg]; decide
    · rcases List.mem_append.mp h with h2 | h2
      · exact pad2_not_space _ c h2
      · rcases List.mem_cons.mp h2 with h3 | h3
        · rw [h3]; decide
        · exact pad2_not_space _ c h3

lemma formatRFC3339Chars_not_space (t : GoTime) :
    ∀ c ∈ formatRFC3339Chars t, isSpaceChar c = false := by
  intro c hc
  rw [formatRFC3339Chars] at hc
  rcases List.mem_append.mp hc with h | h
  · exact pad4_not_space _ c h
  · rcases List.mem_cons.mp h with h | h
    · rw [h]; decide
    · rcases List.mem_append.mp h with h | h
      · exact pad2_not_space _ c h
      · rcases List.mem_cons.mp h with h | h
        · rw [h]; decide
        · rcases List.mem_append.mp h with h | h
          · exact pad2_not_space _ c h
          · rcases List.mem_cons.mp h with h | h
            · rw [h]; decide
            · rcases List.mem_append.mp h with h | h
              · exact pad2_not_space _ c h
              · rcases List.mem_cons.mp h with h | h
                · rw [h]; decide
                · rcases List.mem_append.mp h with h | h
                  · exact pad2_not_space _ c h
                  · rcases List.mem_cons.mp h with h | h
                    · rw [h]; decide
                    · rcases List.mem_append.mp h with h | h
                      · exact pad2_not_space _ c h
                      · exact offsetChars_not_space _ c h

lemma dropWhile_eq_self_of (p : Char → Bool) (cs : List Char)
    (h : ∀ c ∈ cs, p c = false) : cs.dropWhile p = cs := by
  cases cs with
  | nil => rfl
  | cons c rest =>
    rw [List.dropWhile_cons, h c (by simp)]
    simp

lemma trimChars_eq_self (cs : List Char)
    (h : ∀ c ∈ cs, isSpaceChar c = false) : trimChars cs = cs := by
  unfold trimChars
  rw [dropWhile_eq_self_of _ _ h,
    dropWhile_eq_self_of _ _ (fun c hc => h c (List.mem_reverse.mp hc)),
    List.reverse_reverse]

/-- C9 (amended): the checkpoint round-trip is exact for every well-formed
whole-second timestamp: writing `T` with `writeLastProcessedTimestamp` and
reading back with `readLastProcessedTimestamp` yields exactly `T` whenever
`T` has no sub-second part (Go's RFC3339 layout drops fractional
seconds, so sub-second inputs are truncated — see the counterexample). -/
theorem checkpoint_roundtrip_whole_seconds (t : GoTime) (hwf : WFTime t)
    (hns : t.nsec = 0) :
    readLastProcessedTimestamp (writeLastProcessedTimestamp t) = .ok t := by
  unfold writeLastProcessedTimestamp readLastProcessedTimestamp
  dsimp only
  have hdata : (formatRFC3339 t).data = formatRFC3339Chars t := rfl
  have htrim : trimSpace (formatRFC3339 t) = formatRFC3339 t := by
    unfold trimSpace
    rw [hdata, trimChars_eq_self _ (formatRFC3339Chars_not_space t)]
    rfl
  rw [htrim]
  have hne : ¬(formatRFC3339 t = "") := by
    intro hh
    have := congrArg String.data hh
    rw [hdata] at this
    rw [formatRFC3339Chars] at this
    simp [pad4] at this
  rw [if_neg hne]
  have hp : timeParseRFC3339 (formatRFC3339 t) = some t := by
    unfold timeParseRFC3339
    rw [hdata]
    exact parse_format_roundtrip t hwf hns
  rw [hp]

/-- Witness for the amended C9 at a concrete whole-second timestamp with a
non-UTC offset. -/
theorem checkpoint_roundtrip_whole_seconds_witness :
    WFTime ⟨2024, 6, 15, 12, 34, 56, 0, 330⟩ ∧
    readLastProcessedTimestamp
        (writeLastProcessedTimestamp ⟨2024, 6, 15, 12, 34, 56, 0, 330⟩) =
      .ok ⟨2024, 6, 15, 12, 34, 56, 0, 330⟩ := by
  refine ⟨by decide, ?_⟩
  exact checkpoint_roundtrip_whole_seconds ⟨2024, 6, 15, 12, 34, 56, 0, 330⟩
    (by decide) rfl

def rep1 (pat : Char) (rep : List Char) (x : Char) : List Char :=
  if x = pat then rep else [x]

lemma replaceAllAux_nil_cons (p : Char) (rep : List Char) (c : Char)
    (rest : List Char) :
    replaceAllAux p [] rep (c :: rest) =
      if c = p then rep ++ replaceAllAux p [] rep rest
      else c :: replaceAllAux p [] rep rest := by
  rw [replaceAllAux]
  by_cases hc : c = p
  · have h : hasPfx (p :: []) (c :: rest) = true := by simp [hasPfx, hc]
    rw [if_pos h, if_pos hc]
    simp
  · have h : ¬(hasPfx (p :: []) (c :: rest) = true) := by
      simp [hasPfx]
      intro h2
      exact absurd h2.symm hc
    rw [if_neg h, if_neg hc]

lemma replaceAll_single (p : Char) (rep : List Char) (cs : List Char) :
    replaceAll [p] rep cs = cs.flatMap (rep1 p rep) := by
  induction cs with
  | nil => simp [replaceAll, replaceAllAux]
  | cons c rest ih =>
    show replaceAllAux p [] rep (c :: rest) = _
    rw [replaceAllAux_nil_cons, List.flatMap_cons]
    by_cases hc : c = p
    · rw [if_pos hc]
      show rep ++ replaceAll [p] rep rest = _
      rw [ih]
      simp [rep1, hc]
    · rw [if_neg hc]
      show c :: replaceAll [p] rep rest = _
      rw [ih]
      simp [rep1, hc]

/-- Per-character view of the whole escape chain. -/
lemma escapeHTML_eq_flatMap (s : List Char) :
    escapeHTML s = s.flatMap escChar := by
  rw [escapeHTML,
    replaceAll_single '&' entAmp,
    replaceAll_single '<' entLt,
    replaceAll_single '>' entGt,
    replaceAll_single quotChar entQuot,
    replaceAll_single aposChar entApos]
  induction s with
  | nil => rfl
  | cons c rest ih =>
    simp only [List.flatMap_cons, List.flatMap_append]
    rw [ih]
    congr 1
    by_cases h1 : c = '&'
    · subst h1; decide
    by_cases h2 : c = '<'
    · subst h2; decide
    by_cases h3 : c = '>'
    · subst h3; decide
    by_cases h4 : c = quotChar
    · subst h4; decide
    by_cases h5 : c = aposChar
    · subst h5; decide
    simp [rep1, escChar, h1, h2, h3, h4, h5]

lemma escChar_no_raw (x c : Char) (hc : c ∈ escChar x) :
    c ≠ '<' ∧ c ≠ '>' ∧ c ≠ quotChar ∧ c ≠ aposChar := by
  unfold escChar at hc
  by_cases h1 : x = '&'
  · rw [if_pos h1] at hc
    simp only [entAmp, List.mem_cons, List.not_mem_nil, or_false] at hc
    rcases hc with h | h | h | h | h <;> subst h <;>
      exact ⟨by decide, by decide, by decide, by decide⟩
  rw [if_neg h1] at hc
  by_cases h2 : x = '<'
  · rw [if_pos h2] at hc
    simp only [entLt, List.mem_cons, List.not_mem_nil, or_false] at hc
    rcases hc with h | h | h | h <;> subst h <;>
      exact ⟨by decide, by decide, by decide, by decide⟩
  rw [if_neg h2] at hc
  by_cases h3 : x = '>'
  · rw [if_pos h3] at hc
    simp only [entGt, List.mem_cons, List.not_mem_nil, or_false] at hc
    rcases hc with h | h | h | h <;> subst h <;>
      exact ⟨by decide, by decide, by decide, by decide⟩
  rw [if_neg h3] at hc
  by_cases h4 : x = quotChar
  · rw [if_pos h4] at hc
    simp only [entQuot, List.mem_cons, List.not_mem_nil, or_false] at hc
    rcases hc with h | h | h | h | h | h <;> subst h <;>
      exact ⟨by decide, by decide, by decide, by decide⟩
  rw [if_neg h4] at hc
  by_cases h5 : x = aposChar
  · rw [if_pos h5] at hc
    simp only [entApos, List.mem_cons, List.not_mem_nil, or_false] at hc
    rcases hc with h | h | h | h | h <;> subst h <;>
      exact ⟨by decide, by decide, by decide, by decide⟩
  rw [if_neg h5] at hc
  simp only [List.mem_cons, List.not_mem_nil, or_false] at hc
  subst hc
  exact ⟨h2, h3, h4, h5⟩

lemma unescape_flatMap (cs : List Char) :
    unescapeHTML (cs.flatMap escChar) = cs := by
  induction cs with
  | nil => simp [unescapeHTML]
  | cons c rest ih =>
    rw [List.flatMap_cons]
    by_cases h1 : c = '&'
    · subst h1
      rw [show escChar '&' ++ rest.flatMap escChar =
        '&' :: 'a' :: 'm' :: 'p' :: ';' :: rest.flatMap escChar from rfl]
      rw [unescapeHTML]
      simp [hasPfx, entAmp, ih]
    by_cases h2 : c = '<'
    · subst h2
      rw [show escChar '<' ++ rest.flatMap escChar =
        '&' :: 'l' :: 't' :: ';' :: rest.flatMap escChar from rfl]
      rw [unescapeHTML]
      simp [hasPfx, entAmp, entLt, ih]
    by_cases h3 : c = '>'
    · subst h3
      rw [show escChar '>' ++ rest.flatMap escChar =
        '&' :: 'g' :: 't' :: ';' :: rest.flatMap escChar from rfl]
      rw [unescapeHTML]
      simp [hasPfx, entAmp, entLt, entGt, ih]
    by_cases h4 : c = quotChar
    · subst h4
      rw [show escChar quotChar ++ rest.flatMap escChar =
        '&' :: 'q' :: 'u' :: 'o' :: 't' :: ';' :: rest.flatMap escChar from rfl]
      rw [unescapeHTML]
      simp [hasPfx, entAmp, entLt, entGt, entQuot, ih]
    by_cases h5 : c = aposChar
    · subst h5
      rw [show escChar aposChar ++ rest.flatMap escChar =
        '&' :: '#' :: '3' :: '9' :: ';' :: rest.flatMap escChar from rfl]
      rw [unescapeHTML]
      simp [hasPfx, entAmp, entLt, entGt, entQuot, entApos, ih]
    have hesc : escChar c = [c] := by simp [escChar, h1, h2, h3, h4, h5]
    rw [hesc]
    rw [show [c] ++ rest.flatMap escChar = c :: rest.flatMap escChar from rfl]
    rw [unescapeHTML]
    simp [hasPfx, entAmp, entLt, entGt, entQuot, entApos, Ne.symm h1, ih]

/-- C10: `escapeHTML` output contains no raw angle bracket, double quote
or apostrophe, and — because the ampersand is replaced first — no entity
is double-escaped: replacing the five entities back recovers the input
exactly. -/
theorem escapeHTML_no_raw_and_roundtrip (s : List Char) :
    (∀ c ∈ escapeHTML s, c ≠ '<' ∧ c ≠ '>' ∧ c ≠ quotChar ∧ c ≠ aposChar) ∧
    unescapeHTML (escapeHTML s) = s := by
  constructor
  · intro c hc
    rw [escapeHTML_eq_flatMap] at hc
    obtain ⟨x, _, hcx⟩ := List.mem_flatMap.mp hc
    exact escChar_no_raw x c hcx
  · rw [escapeHTML_eq_flatMap]
    exact unescape_flatMap s
